import Mathlib

/-!
# Verification of the movie-releases Telegram bot

A shallow embedding of the Go program `dgellow/movie-releases` (final
iteration: the file containing `handleSubscribe`, `handleTaskNotify`,
`queryMovies`, and the regex command dispatcher in `main`), together with
proofs of the specification claims about it.

Modelling conventions:
* `time.Time` instants are modelled as `Int` values counting seconds
  (proleptic Gregorian calendar, epoch 1970-01-01 00:00 UTC, matching the
  absolute-time arithmetic of the Go `time` package); `t1.Before t2` is
  `t1 < t2`, `t1.After t2` is `t2 < t1`, `t1.Sub t2` is `t1 - t2`.
* The Google Cloud Datastore is modelled as an association list from the
  record key (the `int64` catalog id that Go stringifies into the name key)
  to the stored `MovieRelease`; `Get`, `Put` and `GetAll` become pure
  association-list operations, and `RunInTransaction` becomes a pure
  state-to-state function (the transaction body of `handleSubscribe` is
  deterministic and touches a single key).
* Outbound Telegram messages become values `(chatID, text)` collected in a
  list, in the order the Go code sends them.
* Go strings are modelled as `String` / `List Char`; the program lowercases
  its input before matching, and the model's `Char.toLower` agrees with
  Go's `strings.ToLower` on the ASCII range exercised here.
-/

/-- `Subscriber` record (field order as in the Go struct). -/
structure Subscriber where
  notified : Bool
  chatID : Int
deriving DecidableEq, Repr

/-- `MovieRelease` record stored in the datastore. -/
structure MovieRelease where
  id : Int
  movieTitle : String
  releaseDate : Int
  subscribers : List Subscriber
deriving DecidableEq, Repr

/-- The datastore, keyed by the catalog id used to build the datastore name
key `fmt.Sprintf("%d", release.ID)` (that formatting is injective on ids, so
we key by the id itself). -/
def Store := List (Int × MovieRelease)

instance : DecidableEq Store := inferInstanceAs (DecidableEq (List (Int × MovieRelease)))

/-- `tx.Get` / a keyed datastore read. -/
def storeGet (st : Store) (k : Int) : Option MovieRelease :=
  match st with
  | [] => none
  | (k', v) :: rest => if k' = k then some v else storeGet rest k

/-- `tx.Put` / a keyed datastore write: replaces the record at the key, or
appends it when the key is new. -/
def storePut (st : Store) (k : Int) (v : MovieRelease) : Store :=
  match st with
  | [] => [(k, v)]
  | (k', v') :: rest => if k' = k then (k, v) :: rest else (k', v') :: storePut rest k v

/-- `GetAll` over the `MovieRelease` kind: all stored records, in order. -/
def storeAll (st : Store) : List MovieRelease := st.map Prod.snd

/-! ## Calendar arithmetic (the `time` package's proleptic Gregorian calendar)

`daysFromCivil` is the standard civil-calendar conversion sending a
Gregorian date to its day count since 1970-01-01; it agrees with the
absolute-time computation of Go's `time.Date` for all dates the layout
`2006-01-02` can produce (years 0000–9999). -/

/-- Gregorian leap-year test, as in the `time` package. -/
def isLeapYear (y : Int) : Bool :=
  y % 4 = 0 && (y % 100 ≠ 0 || y % 400 = 0)

/-- Days in a month of a given year. -/
def daysInMonth (y m : Int) : Int :=
  if m = 2 then (if isLeapYear y then 29 else 28)
  else if m = 4 ∨ m = 6 ∨ m = 9 ∨ m = 11 then 30
  else 31

/-- Day number of a Gregorian civil date, with day 0 = 1970-01-01. -/
def daysFromCivil (y m d : Int) : Int :=
  let y' := if m ≤ 2 then y - 1 else y
  let era := (if 0 ≤ y' then y' else y' - 399).ediv 400
  let yoe := y' - era * 400
  let doy := (153 * (m + (if 2 < m then -3 else 9)) + 2).ediv 5 + d - 1
  let doe := yoe * 365 + yoe.ediv 4 - yoe.ediv 100 + doy
  era * 146097 + doe - 719468

/-- The instant (in seconds) of midnight UTC of a civil date, which is what
`time.Parse("2006-01-02", ...)` produces. -/
def civilInstant (y m d : Int) : Int := 86400 * daysFromCivil y m d

/-- The zero `time.Time` value: January 1 of year 1, 00:00 UTC.  This is the
`ReleaseTime` carried by a result whose release-date string is empty. -/
def zeroTime : Int := civilInstant 1 1 1

/-- Numeric value of a decimal digit character. -/
def digitVal (c : Char) : Int := Int.ofNat (c.toNat - '0'.toNat)

/-- `time.Parse("2006-01-02", s)`: exactly four year digits, a dash, two
month digits, a dash, two day digits, nothing else; the month must lie in
1..12 and the day in 1..daysInMonth.  On success the parsed midnight-UTC
instant is returned. -/
def parseDate (s : String) : Option Int :=
  match s.toList with
  | [y1, y2, y3, y4, h1, m1, m2, h2, d1, d2] =>
    if y1.isDigit && y2.isDigit && y3.isDigit && y4.isDigit &&
       h1 = '-' && m1.isDigit && m2.isDigit && h2 = '-' && d1.isDigit && d2.isDigit then
      let y := 1000 * digitVal y1 + 100 * digitVal y2 + 10 * digitVal y3 + digitVal y4
      let m := 10 * digitVal m1 + digitVal m2
      let d := 10 * digitVal d1 + digitVal d2
      if 1 ≤ m ∧ m ≤ 12 ∧ 1 ≤ d ∧ d ≤ daysInMonth y m then
        some (civilInstant y m d)
      else none
    else none
  | _ => none

example : parseDate "1970-01-01" = some 0 := by decide
example : parseDate "2018-12-25" = some (86400 * 17890) := by decide
example : parseDate "" = none := by decide
example : parseDate "2018-13-01" = none := by decide

/-! ## Movie query client (`queryMovies`) -/

/-- `MovieAPIResult`: one entry of the search response.  `releaseDate` is the
raw `release_date` string from the JSON body; `releaseTime` is the parsed
instant (the zero `time.Time` when nothing was parsed into it). -/
structure MovieAPIResult where
  title : String
  releaseDate : String
  id : Int
  releaseTime : Int
deriving DecidableEq, Repr

/-- A result as decoded by `json.Unmarshal`: the three JSON-tagged fields are
filled in and `ReleaseTime` still holds the zero `time.Time`. -/
structure RawResult where
  title : String
  releaseDate : String
  id : Int
deriving DecidableEq, Repr

/-- The `MovieAPIResult` a raw decoded entry denotes before date parsing. -/
def RawResult.toResult (r : RawResult) : MovieAPIResult :=
  ⟨r.title, r.releaseDate, r.id, zeroTime⟩

/-- Insert into a list that is sorted by `releaseTime` descending. -/
def insertDesc (x : MovieAPIResult) : List MovieAPIResult → List MovieAPIResult
  | [] => [x]
  | y :: ys => if y.releaseTime ≤ x.releaseTime then x :: y :: ys else y :: insertDesc x ys

/-- `sort.Sort(sort.Reverse(results))` with `Less i j = ReleaseTime_i.Before
ReleaseTime_j`: sorts by release time descending.  `sort.Sort` is an
unspecified (unstable) comparison sort; it is modelled by an insertion sort
realizing the same contract — the output is a permutation of the input
ordered by the comparator. -/
def sortDesc : List MovieAPIResult → List MovieAPIResult
  | [] => []
  | x :: xs => insertDesc x (sortDesc xs)

/-- Date-parsing pass of `queryMovies`: an empty `release_date` string is
skipped (the entry keeps the zero `ReleaseTime`); a non-empty string must
parse as `2006-01-02` or the whole batch fails. -/
def parseDates : List RawResult → Except String (List MovieAPIResult)
  | [] => .ok []
  | r :: rest =>
    if r.releaseDate = "" then
      match parseDates rest with
      | .ok out => .ok (r.toResult :: out)
      | .error e => .error e
    else
      match parseDate r.releaseDate with
      | some t =>
        match parseDates rest with
        | .ok out => .ok ({ r.toResult with releaseTime := t } :: out)
        | .error e => .error e
      | none => .error "failed to parse release date"

/-- `queryMovies`, from the HTTP response on:  `status` is the response
status code; `body` is the decoded `results` array (`none` when the body is
not valid JSON for the expected shape).  Transport-level failure of
`http.Get` is an error before any of this runs and is not modelled.  On
success the parsed results are returned sorted by release time descending. -/
def queryMovies (status : Nat) (body : Option (List RawResult)) :
    Except String (List MovieAPIResult) :=
  if status ≠ 200 then .error "unexpected status code"
  else
    match body with
    | none => .error "failed to parse json"
    | some results =>
      match parseDates results with
      | .ok out => .ok (sortDesc out)
      | .error e => .error e

/-! ## Subscribe (`handleSubscribe`) -/

/-- The transaction body run by `datastoreClient.RunInTransaction` in the
one-upcoming-candidate branch of `handleSubscribe`: read the record for the
release's key, seed it from the fresh snapshot when absent, do nothing when
the chat id is already subscribed, otherwise append `{Notified: false,
ChatID: chatID}` and put the record back. -/
def upsertTx (st : Store) (release : MovieRelease) (chatID : Int) : Store :=
  let txRelease := (storeGet st release.id).getD release
  if txRelease.subscribers.any (fun s => s.chatID = chatID) then st
  else storePut st release.id
    { txRelease with subscribers := txRelease.subscribers ++ [⟨false, chatID⟩] }

/-- Outcome of one `handleSubscribe` call: the reply text, the datastore
after the call, and how many subscribe transactions were run. -/
structure SubscribeOutcome where
  reply : String
  store : Store
  txCount : Nat
deriving DecidableEq

/-- `handleSubscribe`, after `queryMovies` succeeded with `results`: keep
the candidates whose release time is strictly after `now` (as fresh
`MovieRelease` snapshots with no subscribers), then dispatch on how many
remain. -/
def handleSubscribe (results : List MovieAPIResult) (now : Int) (chatID : Int)
    (st : Store) : SubscribeOutcome :=
  let upcoming := results.filterMap (fun res =>
    if now < res.releaseTime then some (⟨res.id, res.title, res.releaseTime, []⟩ : MovieRelease)
    else none)
  match upcoming with
  | [] => ⟨"No movie releases found :(", st, 0⟩
  | [release] => ⟨"Done!", upsertTx st release chatID, 1⟩
  | _ => ⟨"Found multiple movies, be more specific please.", st, 0⟩

/-! ## Notifier (`handleTaskNotify`) -/

/-- Ceiling integer division by a positive divisor:
`ceilDiv a b = ⌈a / b⌉`.  Models `int(math.Ceil(d.Hours() / 24))` from the
notifier, with the duration expressed in seconds and `b = 86400` (for
durations in the 7-day window the float computation is exact). -/
def ceilDiv (a b : Int) : Int := -((-a) / b)

/-- The notification text
`fmt.Sprintf("%s will be released in %d days.", title, days)`. -/
def msgText (now : Int) (title : String) (releaseDate : Int) : String :=
  title ++ " will be released in " ++ toString (ceilDiv (releaseDate - now) 86400) ++ " days."

/-- The release-window test of the notifier:
`record.ReleaseDate.After(now) && record.ReleaseDate.Before(now.Add(7*24*time.Hour))`. -/
def inWindow (now releaseDate : Int) : Bool :=
  decide (now < releaseDate) && decide (releaseDate < now + 604800)

/-- The inner subscriber loop of `handleTaskNotify` for one in-window
record: returns the messages sent (in order) and the updated subscriber
list.  An already-notified subscriber is skipped; an unnotified one is sent
the notification text and flipped to notified. -/
def notifySubs (now : Int) (title : String) (releaseDate : Int) :
    List Subscriber → List (Int × String) × List Subscriber
  | [] => ([], [])
  | sub :: rest =>
    let r := notifySubs now title releaseDate rest
    if sub.notified then (r.1, sub :: r.2)
    else ((sub.chatID, msgText now title releaseDate) :: r.1, ⟨true, sub.chatID⟩ :: r.2)

/-- Outcome of one notifier pass: the messages sent, the datastore contents
after the pass (every record, written or not, in order), and the records
written back with `Put` (in order). -/
structure NotifyOutcome where
  msgs : List (Int × String)
  store : List MovieRelease
  puts : List MovieRelease
deriving DecidableEq

/-- `handleTaskNotify` over the records returned by `GetAll`, at time
`now`: a record outside the open window `(now, now + 7d)` is skipped
entirely; an in-window record has its subscribers processed and is then
written back exactly once.  (The Go code calls `time.Now()` afresh for each
record; a single pass is modelled at one instant `now`.) -/
def handleTaskNotify (now : Int) : List MovieRelease → NotifyOutcome
  | [] => ⟨[], [], []⟩
  | record :: rest =>
    let o := handleTaskNotify now rest
    if inWindow now record.releaseDate then
      let r := notifySubs now record.movieTitle record.releaseDate record.subscribers
      let record' : MovieRelease := { record with subscribers := r.2 }
      ⟨r.1 ++ o.msgs, record' :: o.store, record' :: o.puts⟩
    else ⟨o.msgs, record :: o.store, o.puts⟩

/-! ## Command parsing (the regexes and the dispatcher in `main`)

The four `regexp.MustCompile` patterns are transcribed into a small regex
AST, and Go's `FindStringSubmatch` is modelled by a prioritized backtracking
matcher: candidate start positions are tried left to right, and at a given
position alternatives are tried in the order a backtracking search tries
them (greedy `?` and `+`), which is the submatch-selection rule of the
`regexp` package.  `.` matches any character except a newline. -/

/-- Regex AST covering the constructs used by the four command patterns. -/
inductive Regex where
  | emp : Regex
  | lit : Char → Regex
  | dot : Regex
  | digit : Regex
  | cat : Regex → Regex → Regex
  | opt : Regex → Regex
  | plus : Regex → Regex
  | grp : Nat → Regex → Regex
deriving Repr

/-- The regex matching a literal string. -/
def lits : List Char → Regex
  | [] => .emp
  | c :: cs => .cat (.lit c) (lits cs)

/-- Captures recorded so far: group index paired with captured text. -/
def Caps := List (Nat × List Char)

/-- The backtracking matcher, in continuation-passing style.  `mrun fuel r s
caps k` tries to match `r` against a prefix of `s`; on each way of matching
(highest-priority first) it calls `k` with the remaining input and the
captures, and returns the first success.  `fuel` bounds the recursion depth
(structure depth of the pattern plus one per `plus` iteration); the callers
below always pass enough for the four command patterns. -/
def mrun (fuel : Nat) (r : Regex) (s : List Char) (caps : Caps)
    (k : List Char → Caps → Option (List Char × Caps)) : Option (List Char × Caps) :=
  match fuel with
  | 0 => none
  | f + 1 =>
    match r with
    | .emp => k s caps
    | .lit c =>
      match s with
      | [] => none
      | a :: rest => if a = c then k rest caps else none
    | .dot =>
      match s with
      | [] => none
      | a :: rest => if a = '\n' then none else k rest caps
    | .digit =>
      match s with
      | [] => none
      | a :: rest => if a.isDigit then k rest caps else none
    | .cat r1 r2 => mrun f r1 s caps (fun s1 c1 => mrun f r2 s1 c1 k)
    | .opt r1 => (mrun f r1 s caps k) <|> k s caps
    | .plus r1 => mrun f r1 s caps (fun s1 c1 => (mrun f (.plus r1) s1 c1 k) <|> k s1 c1)
    | .grp n r1 => mrun f r1 s caps (fun s1 c1 => k s1 ((n, s.take (s.length - s1.length)) :: c1))

/-- Scan the start positions left to right and return the first (leftmost)
match: the matched text and the captures. -/
def findFrom (r : Regex) (s : List Char) : Option (List Char × Caps) :=
  match mrun (2 * s.length + 200) r s [] (fun rest caps => some (rest, caps)) with
  | some (rest, caps) => some (s.take (s.length - rest.length), caps)
  | none =>
    match s with
    | [] => none
    | _ :: tail => findFrom r tail

/-- Text captured by group `n` (the empty string when the group did not
participate in the match, as in Go's submatch array). -/
def getCap (caps : Caps) (n : Nat) : List Char :=
  match caps with
  | [] => []
  | (m, v) :: rest => if m = n then v else getCap rest n

/-- `FindStringSubmatch` for a pattern with `ngroups` capture groups: `none`
when the pattern does not match, otherwise the array
`[whole match, group 1, ..., group ngroups]`. -/
def findSubmatch (r : Regex) (ngroups : Nat) (s : List Char) : Option (List (List Char)) :=
  match findFrom r s with
  | some (full, caps) => some (full :: (List.range ngroups).map (fun i => getCap caps (i + 1)))
  | none => none

/-- `subscribe to (.+)` -/
def subscribeCommand : Regex :=
  .cat (lits "subscribe to ".toList) (.grp 1 (.plus .dot))

/-- `releases? ?(exact)? (.+)` -/
def releaseCommand : Regex :=
  .cat (lits "release".toList)
    (.cat (.opt (.lit 's'))
      (.cat (.opt (.lit ' '))
        (.cat (.opt (.grp 1 (lits "exact".toList)))
          (.cat (.lit ' ') (.grp 2 (.plus .dot))))))

/-- `releases? ?(exact)? (.+) year ([0-9]{4})` -/
def releaseYearCommand : Regex :=
  .cat (lits "release".toList)
    (.cat (.opt (.lit 's'))
      (.cat (.opt (.lit ' '))
        (.cat (.opt (.grp 1 (lits "exact".toList)))
          (.cat (.lit ' ')
            (.cat (.grp 2 (.plus .dot))
              (.cat (lits " year ".toList)
                (.grp 3 (.cat .digit (.cat .digit (.cat .digit .digit))))))))))

/-- `list subscriptions?` -/
def listSubscriptionsCommand : Regex :=
  .cat (lits "list subscription".toList) (.opt (.lit 's'))

/-- Whitespace test of `strings.TrimSpace` (ASCII range). -/
def isSpaceChar (c : Char) : Bool := c = ' ' || c = '\t' || c = '\n' || c = '\r'

/-- `strings.TrimSpace`: strip leading and trailing whitespace. -/
def trimSpace (s : List Char) : List Char :=
  ((s.dropWhile isSpaceChar).reverse.dropWhile isSpaceChar).reverse

/-- Which handler one inbound message is routed to, with the submatch array
it is handed (`handleRelease` receives the matches of whichever release
pattern fired). -/
inductive Handled where
  | releaseCmd : List (List Char) → Handled
  | subscribeCmd : List (List Char) → Handled
  | listCmd : Handled
  | helpCmd : Handled
deriving DecidableEq, Repr

/-- The dispatcher of `main`: lowercase and trim the text, then try the four
patterns in order — `releaseYearCommand`, `releaseCommand`,
`subscribeCommand`, `listSubscriptionsCommand` — and fall through to the
help reply when none matches. -/
def dispatchText (input : List Char) : Handled :=
  let text := trimSpace (input.map Char.toLower)
  match findSubmatch releaseYearCommand 3 text with
  | some m => .releaseCmd m
  | none =>
    match findSubmatch releaseCommand 2 text with
    | some m => .releaseCmd m
    | none =>
      match findSubmatch subscribeCommand 1 text with
      | some m => .subscribeCmd m
      | none =>
        match findSubmatch listSubscriptionsCommand 0 text with
        | some _ => .listCmd
        | none => .helpCmd

/-- The release-query fields `handleRelease` extracts from the submatch
array (lines 133–143 of the Go file): `exact` iff group 1 is non-empty, the
title from group 2, and the year from group 3 when the array has four
entries (i.e. the year-qualified pattern fired). -/
structure ReleaseQuery where
  exact : Bool
  title : List Char
  year : List Char
deriving DecidableEq, Repr

/-- The argument-extraction step at the top of `handleRelease`. -/
def parseReleaseArgs (ms : List (List Char)) : ReleaseQuery :=
  { exact := !(ms.getD 1 []).isEmpty
    title := ms.getD 2 []
    year := if ms.length = 4 then ms.getD 3 [] else [] }

/-! ## The `exact` filter of `handleRelease` -/

/-- Does `s` start with `t`? -/
def startsWith : List Char → List Char → Bool
  | _, [] => true
  | [], _ :: _ => false
  | a :: as, b :: bs => a = b && startsWith as bs

/-- `strings.Contains s t`: does `s` contain `t` as a contiguous
substring? -/
def containsSub : List Char → List Char → Bool
  | [], t => startsWith [] t
  | s@(_ :: as), t => startsWith s t || containsSub as t

/-- `strings.ToLower`, character by character (agrees with Go on ASCII). -/
def lowerStr (s : String) : List Char := s.toList.map Char.toLower

/-- The candidate test of the `exact` filter: the lowercased candidate
title contains the (already lowercase) queried title. -/
def keepExact (title : List Char) (r : MovieAPIResult) : Bool :=
  containsSub (lowerStr r.title) title

/-- The in-place removal loop of `handleRelease`
(`for i := 0; i < len(results); i++ { if !contains { remove i; i-- } }`),
written with the same index bookkeeping: on a kept element the index
advances, on a dropped element the element is removed and the index stays. -/
def exactFilterLoop (title : List Char) (i : Nat) (results : List MovieAPIResult) :
    List MovieAPIResult :=
  if h : i < results.length then
    if keepExact title (results.get ⟨i, h⟩) then exactFilterLoop title (i + 1) results
    else exactFilterLoop title i (results.eraseIdx i)
  else results
termination_by results.length - i
decreasing_by
  · omega
  · have := List.length_eraseIdx (l := results) (i := i)
    simp [h] at this
    omega

/-! ## Helper lemmas -/

/-- The comparator the sorted output satisfies: release time descending. -/
def descBy (a b : MovieAPIResult) : Prop := b.releaseTime ≤ a.releaseTime

instance : DecidableRel descBy :=
  fun a b => inferInstanceAs (Decidable (b.releaseTime ≤ a.releaseTime))

theorem insertDesc_perm (x : MovieAPIResult) (l : List MovieAPIResult) :
    List.Perm (insertDesc x l) (x :: l) := by
  induction l with
  | nil => simp [insertDesc]
  | cons y ys ih =>
    by_cases h : y.releaseTime ≤ x.releaseTime
    · simp [insertDesc, h]
    · simp only [insertDesc, if_neg h]
      exact ((ih.cons y).trans (List.Perm.swap x y ys))

theorem sortDesc_perm (l : List MovieAPIResult) : List.Perm (sortDesc l) l := by
  induction l with
  | nil => simp [sortDesc]
  | cons x xs ih => exact (insertDesc_perm x (sortDesc xs)).trans (ih.cons x)

theorem insertDesc_pairwise (x : MovieAPIResult) (l : List MovieAPIResult)
    (h : List.Pairwise descBy l) : List.Pairwise descBy (insertDesc x l) := by
  induction l with
  | nil => simp [insertDesc, List.Pairwise]
  | cons y ys ih =>
    rcases List.pairwise_cons.mp h with ⟨hy, hys⟩
    by_cases hc : y.releaseTime ≤ x.releaseTime
    · simp only [insertDesc, if_pos hc]
      refine List.pairwise_cons.mpr ⟨?_, h⟩
      intro b hb
      rcases List.mem_cons.mp hb with rfl | hb
      · exact hc
      · exact le_trans (hy b hb) hc
    · simp only [insertDesc, if_neg hc]
      refine List.pairwise_cons.mpr ⟨?_, ih hys⟩
      intro b hb
      rcases List.mem_cons.mp ((insertDesc_perm x ys).mem_iff.mp hb) with h1 | h2
      · subst h1
        exact le_of_not_le hc
      · exact hy b h2

theorem sortDesc_pairwise (l : List MovieAPIResult) :
    List.Pairwise descBy (sortDesc l) := by
  induction l with
  | nil => simp [sortDesc]
  | cons x xs ih => exact insertDesc_pairwise x (sortDesc xs) ih

/-- What the date-parsing pass produces entrywise on success. -/
theorem parseDates_ok (rs : List RawResult) (out : List MovieAPIResult)
    (h : parseDates rs = .ok out) :
    List.Forall₂ (fun (r : RawResult) (p : MovieAPIResult) =>
      p.title = r.title ∧ p.releaseDate = r.releaseDate ∧ p.id = r.id ∧
      ((r.releaseDate = "" ∧ p.releaseTime = zeroTime) ∨
       parseDate r.releaseDate = some p.releaseTime)) rs out := by
  induction rs generalizing out with
  | nil =>
    simp only [parseDates] at h
    cases h
    exact List.Forall₂.nil
  | cons r rest ih =>
    simp only [parseDates] at h
    by_cases he : r.releaseDate = ""
    · rw [if_pos he] at h
      cases hrest : parseDates rest with
      | ok tail =>
        rw [hrest] at h
        cases h
        exact List.Forall₂.cons ⟨rfl, rfl, rfl, Or.inl ⟨he, rfl⟩⟩ (ih tail hrest)
      | error e => rw [hrest] at h; cases h
    · rw [if_neg he] at h
      cases hp : parseDate r.releaseDate with
      | some t =>
        rw [hp] at h
        cases hrest : parseDates rest with
        | ok tail =>
          rw [hrest] at h
          cases h
          exact List.Forall₂.cons ⟨rfl, rfl, rfl, Or.inr hp⟩ (ih tail hrest)
        | error e => rw [hrest] at h; cases h
      | none => rw [hp] at h; cases h

/-- A bad non-empty date string anywhere in the batch makes the
date-parsing pass fail. -/
theorem parseDates_error (rs : List RawResult)
    (h : ∃ r ∈ rs, r.releaseDate ≠ "" ∧ parseDate r.releaseDate = none) :
    ∃ e, parseDates rs = .error e := by
  induction rs with
  | nil => simp at h
  | cons r rest ih =>
    rcases h with ⟨b, hbmem, hne, hnone⟩
    rcases List.mem_cons.mp hbmem with rfl | hb
    · refine ⟨"failed to parse release date", ?_⟩
      simp only [parseDates, if_neg hne, hnone]
    · by_cases he : r.releaseDate = ""
      · rcases ih ⟨b, hb, hne, hnone⟩ with ⟨e, herr⟩
        exact ⟨e, by simp only [parseDates, if_pos he, herr]⟩
      · cases hp : parseDate r.releaseDate with
        | some t =>
          rcases ih ⟨b, hb, hne, hnone⟩ with ⟨e, herr⟩
          exact ⟨e, by simp only [parseDates, if_neg he, hp, herr]⟩
        | none =>
          exact ⟨"failed to parse release date", by simp only [parseDates, if_neg he, hp]⟩

/-- An entry with an empty date string is kept, with the zero release
time. -/
theorem parseDates_keeps_empty (rs : List RawResult) (out : List MovieAPIResult)
    (h : parseDates rs = .ok out) :
    ∀ r ∈ rs, r.releaseDate = "" → r.toResult ∈ out := by
  induction rs generalizing out with
  | nil => simp
  | cons r rest ih =>
    intro b hb hbe
    simp only [parseDates] at h
    by_cases he : r.releaseDate = ""
    · rw [if_pos he] at h
      cases hrest : parseDates rest with
      | ok tail =>
        rw [hrest] at h
        cases h
        rcases List.mem_cons.mp hb with rfl | hb
        · exact List.mem_cons_self _ _
        · exact List.mem_cons_of_mem _ (ih tail hrest b hb hbe)
      | error e => rw [hrest] at h; cases h
    · rw [if_neg he] at h
      cases hp : parseDate r.releaseDate with
      | some t =>
        rw [hp] at h
        cases hrest : parseDates rest with
        | ok tail =>
          rw [hrest] at h
          cases h
          rcases List.mem_cons.mp hb with rfl | hb
          · exact absurd hbe he
          · exact List.mem_cons_of_mem _ (ih tail hrest b hb hbe)
        | error e => rw [hrest] at h; cases h
      | none => rw [hp] at h; cases h

/-- The messages one notifier pass sends, as the specification describes
them: every record in the open 7-day window contributes one message per
still-unnotified subscriber, in order; every other record contributes
nothing.  (Spec-side description, to be compared with `handleTaskNotify`.) -/
def notifyMsgsSpec (now : Int) (rs : List MovieRelease) : List (Int × String) :=
  rs.flatMap (fun r =>
    if inWindow now r.releaseDate then
      (r.subscribers.filter (fun s => !s.notified)).map
        (fun s => (s.chatID, msgText now r.movieTitle r.releaseDate))
    else [])

/-- A record after its subscribers have been processed: every subscriber
notified. -/
def allNotified (r : MovieRelease) : MovieRelease :=
  { r with subscribers := r.subscribers.map (fun s => ⟨true, s.chatID⟩) }

/-- The records one notifier pass writes back, as the specification
describes them: exactly the in-window records, each written once, fully
notified.  (Spec-side description, to be compared with
`handleTaskNotify`.) -/
def notifyPutsSpec (now : Int) (rs : List MovieRelease) : List MovieRelease :=
  (rs.filter (fun r => inWindow now r.releaseDate)).map allNotified

theorem notifySubs_fst (now : Int) (title : String) (rel : Int)
    (subs : List Subscriber) :
    (notifySubs now title rel subs).1 =
      (subs.filter (fun s => !s.notified)).map
        (fun s => (s.chatID, msgText now title rel)) := by
  induction subs with
  | nil => simp [notifySubs]
  | cons sub rest ih =>
    by_cases h : sub.notified
    · simp [notifySubs, h, ih]
    · simp [notifySubs, h, ih]

theorem notifySubs_snd (now : Int) (title : String) (rel : Int)
    (subs : List Subscriber) :
    (notifySubs now title rel subs).2 = subs.map (fun s => ⟨true, s.chatID⟩) := by
  induction subs with
  | nil => simp [notifySubs]
  | cons sub rest ih =>
    cases sub with
    | mk n c =>
      cases n
      · simp [notifySubs, ih]
      · simp [notifySubs, ih]

theorem handleTaskNotify_msgs (now : Int) (rs : List MovieRelease) :
    (handleTaskNotify now rs).msgs = notifyMsgsSpec now rs := by
  induction rs with
  | nil => simp [handleTaskNotify, notifyMsgsSpec]
  | cons r rest ih =>
    by_cases h : inWindow now r.releaseDate
    · simp [handleTaskNotify, notifyMsgsSpec, h, ih, notifySubs_fst]
    · simp [handleTaskNotify, notifyMsgsSpec, h, ih]

theorem handleTaskNotify_puts (now : Int) (rs : List MovieRelease) :
    (handleTaskNotify now rs).puts = notifyPutsSpec now rs := by
  induction rs with
  | nil => simp [handleTaskNotify, notifyPutsSpec]
  | cons r rest ih =>
    by_cases h : inWindow now r.releaseDate
    · simp [handleTaskNotify, notifyPutsSpec, h, ih, notifySubs_snd, allNotified]
    · simp [handleTaskNotify, notifyPutsSpec, h, ih]

theorem handleTaskNotify_store (now : Int) (rs : List MovieRelease) :
    (handleTaskNotify now rs).store =
      rs.map (fun r => if inWindow now r.releaseDate then allNotified r else r) := by
  induction rs with
  | nil => simp [handleTaskNotify]
  | cons r rest ih =>
    by_cases h : inWindow now r.releaseDate
    · simp [handleTaskNotify, h, ih, notifySubs_snd, allNotified]
    · simp [handleTaskNotify, h, ih]

theorem storeGet_storePut_same (st : Store) (k : Int) (v : MovieRelease) :
    storeGet (storePut st k v) k = some v := by
  induction st with
  | nil => simp [storeGet, storePut]
  | cons p rest ih =>
    obtain ⟨k', v'⟩ := p
    by_cases h : k' = k
    · simp [storeGet, storePut, h]
    · simp [storeGet, storePut, h, ih]

theorem storeGet_storePut_other (st : Store) (k k' : Int) (v : MovieRelease)
    (h : k' ≠ k) : storeGet (storePut st k v) k' = storeGet st k' := by
  induction st with
  | nil => simp [storeGet, storePut, Ne.symm h]
  | cons p rest ih =>
    obtain ⟨k0, v0⟩ := p
    by_cases h0 : k0 = k
    · subst h0
      simp [storeGet, storePut, Ne.symm h]
    · simp only [storePut, if_neg h0, storeGet]
      by_cases h1 : k0 = k'
      · simp [h1]
      · simp [h1, ih]

theorem storeAll_storePut (st : Store) (k : Int) (v : MovieRelease) :
    ∀ r ∈ storeAll (storePut st k v), r ∈ storeAll st ∨ r = v := by
  induction st with
  | nil => simp [storeAll, storePut]
  | cons p rest ih =>
    obtain ⟨k0, v0⟩ := p
    by_cases h : k0 = k
    · intro r hr
      simp only [storePut, if_pos h, storeAll, List.map_cons] at hr
      rcases List.mem_cons.mp hr with rfl | hr
      · exact Or.inr rfl
      · exact Or.inl (by simp [storeAll]; right; simpa [storeAll] using hr)
    · intro r hr
      simp only [storePut, if_neg h, storeAll, List.map_cons] at hr
      rcases List.mem_cons.mp hr with rfl | hr
      · exact Or.inl (by simp [storeAll])
      · rcases ih r (by simpa [storeAll] using hr) with h1 | h1
        · exact Or.inl (by simp [storeAll]; right; simpa [storeAll] using h1)
        · exact Or.inr h1

theorem storeGet_mem (st : Store) (k : Int) (r : MovieRelease)
    (h : storeGet st k = some r) : r ∈ storeAll st := by
  induction st with
  | nil => simp [storeGet] at h
  | cons p rest ih =>
    obtain ⟨k0, v0⟩ := p
    by_cases h0 : k0 = k
    · simp only [storeGet, if_pos h0] at h
      cases h
      simp [storeAll]
    · simp only [storeGet, if_neg h0] at h
      simp [storeAll]
      exact Or.inr (by simpa [storeAll] using ih h)

/-- After an upsert, the record stored at the release's key exists and has
the requesting chat id among its subscribers. -/
theorem upsertTx_get (st : Store) (rel : MovieRelease) (chat : Int)
    (hrel : rel.subscribers = []) :
    ∃ r, storeGet (upsertTx st rel chat) rel.id = some r ∧
      r.subscribers.any (fun s => s.chatID = chat) = true := by
  unfold upsertTx
  cases hg : storeGet st rel.id with
  | none =>
    simp only [hg, Option.getD_none, hrel, List.any_nil, if_neg Bool.false_ne_true]
    refine ⟨_, storeGet_storePut_same st rel.id _, ?_⟩
    simp [hrel]
  | some r0 =>
    by_cases ha : r0.subscribers.any (fun s => s.chatID = chat) = true
    · simp only [hg, Option.getD_some, if_pos ha]
      exact ⟨r0, rfl, ha⟩
    · simp only [hg, Option.getD_some, if_neg ha]
      refine ⟨_, storeGet_storePut_same st rel.id _, ?_⟩
      simp

/-- In a subscriber list whose chat ids are distinct and contain `chat`,
exactly one entry carries `chat`. -/
theorem count_chat_of_nodup (subs : List Subscriber) (chat : Int)
    (hnd : (subs.map Subscriber.chatID).Nodup)
    (hmem : subs.any (fun s => s.chatID = chat) = true) :
    (subs.filter (fun s => s.chatID = chat)).length = 1 := by
  induction subs with
  | nil => simp at hmem
  | cons s rest ih =>
    simp only [List.map_cons, List.nodup_cons] at hnd
    obtain ⟨hnotin, hndrest⟩ := hnd
    by_cases hc : s.chatID = chat
    · have : rest.filter (fun s => s.chatID = chat) = [] := by
        refine List.filter_eq_nil_iff.mpr ?_
        intro b hb
        simp only [decide_eq_true_eq]
        intro hbc
        exact hnotin (by rw [← hc] at hbc; exact hbc ▸ List.mem_map_of_mem Subscriber.chatID hb)
      simp [List.filter_cons, hc, this]
    · have hmem' : rest.any (fun s => s.chatID = chat) = true := by
        simp only [List.any_cons, Bool.or_eq_true, decide_eq_true_eq] at hmem
        rcases hmem with h | h
        · exact absurd h hc
        · exact h
      simp [List.filter_cons, hc, ih hndrest hmem']

/-- The in-place removal loop is the filter by the keep-predicate: from
index `i` on, the loop leaves the first `i` elements alone and filters the
rest. -/
theorem exactFilterLoop_eq_aux (title : List Char) (results : List MovieAPIResult)
    (i : Nat) :
    exactFilterLoop title i results =
      results.take i ++ (results.drop i).filter (keepExact title) := by
  by_cases h : i < results.length
  · by_cases hk : keepExact title (results.get ⟨i, h⟩)
    · rw [exactFilterLoop, dif_pos h, if_pos hk]
      rw [exactFilterLoop_eq_aux title results (i + 1)]
      have htake : results.take (i + 1) = results.take i ++ [results[i]] := by
        rw [List.take_succ, List.getElem?_eq_getElem h]
        rfl
      rw [htake, List.drop_eq_getElem_cons h,
        List.filter_cons_of_pos (by simpa using hk), List.append_assoc,
        List.singleton_append]
    · rw [exactFilterLoop, dif_pos h, if_neg hk]
      rw [exactFilterLoop_eq_aux title (results.eraseIdx i) i]
      rw [List.eraseIdx_eq_take_drop_succ]
      have hlen : (results.take i).length = i := List.length_take_of_le (le_of_lt h)
      rw [List.take_left' hlen, List.drop_left' hlen]
      rw [List.drop_eq_getElem_cons h,
        List.filter_cons_of_neg (by simpa using hk)]
  · rw [exactFilterLoop, dif_neg h]
    rw [List.take_of_length_le (le_of_not_lt h), List.drop_of_length_le (le_of_not_lt h)]
    simp
termination_by results.length - i
decreasing_by
  all_goals
    first
    | omega
    | · have := List.length_eraseIdx (l := results) (i := i)
        simp [h] at this
        omega

/-- `filterMap` of a guarded `some` is `map` after `filter`. -/
theorem filterMap_guard {α β : Type} (p : α → Prop) [DecidablePred p] (g : α → β)
    (l : List α) :
    l.filterMap (fun a => if p a then some (g a) else none) =
      (l.filter (fun a => decide (p a))).map g := by
  induction l with
  | nil => simp
  | cons a rest ih =>
    by_cases h : p a
    · simp [List.filterMap_cons, h, ih, List.filter_cons]
    · simp [List.filterMap_cons, h, ih, List.filter_cons]

/-- Entries of a successfully parsed batch that carry an empty date string
carry the zero release time. -/
theorem parseDates_empty_zero (rs : List RawResult) (out : List MovieAPIResult)
    (h : parseDates rs = .ok out) :
    ∀ p ∈ out, p.releaseDate = "" → p.releaseTime = zeroTime := by
  induction rs generalizing out with
  | nil =>
    simp only [parseDates] at h
    cases h
    simp
  | cons r rest ih =>
    simp only [parseDates] at h
    by_cases he : r.releaseDate = ""
    · rw [if_pos he] at h
      cases hrest : parseDates rest with
      | ok tail =>
        rw [hrest] at h
        cases h
        intro p hp hpe
        rcases List.mem_cons.mp hp with rfl | hp
        · rfl
        · exact ih tail hrest p hp hpe
      | error e => rw [hrest] at h; cases h
    · rw [if_neg he] at h
      cases hpd : parseDate r.releaseDate with
      | some t =>
        rw [hpd] at h
        cases hrest : parseDates rest with
        | ok tail =>
          rw [hrest] at h
          cases h
          intro p hp hpe
          rcases List.mem_cons.mp hp with rfl | hp
          · exact absurd hpe he
          · exact ih tail hrest p hp hpe
        | error e => rw [hrest] at h; cases h
      | none => rw [hpd] at h; cases h

/-- Dropping the elements whose contribution is empty does not change a
`flatMap`. -/
theorem flatMap_filter_of_nil {α β : Type} (f : α → List β) (p : α → Bool)
    (l : List α) (h : ∀ a ∈ l, p a = false → f a = []) :
    l.flatMap f = (l.filter p).flatMap f := by
  induction l with
  | nil => simp
  | cons a rest ih =>
    have hrest := ih (fun b hb => h b (List.mem_cons_of_mem a hb))
    cases hp : p a
    · simp [List.filter_cons, hp, h a (List.mem_cons_self a rest) hp, hrest]
    · simp [List.filter_cons, hp, hrest]

/-- `ceilDiv · 86400` is the ceiling of division by 86400: the unique
integer `q` with `86400 * (q - 1) < a ≤ 86400 * q`. -/
theorem ceilDiv_86400_spec (a : Int) :
    86400 * ceilDiv a 86400 - 86400 < a ∧ a ≤ 86400 * ceilDiv a 86400 := by
  unfold ceilDiv
  omega

/-! ## Claim theorems -/

/-- C1: A single notifier pass at time `now` sends, for every stored record
whose release date lies strictly inside `(now, now + 7 days)`, exactly one
message per subscriber with `notified = false` — the text built by
`msgText`, which says the title will be released in `ceilDiv (release -
now) 86400` days, and that count is the ceiling of the remaining time in
whole days — flips every such subscriber to notified, and writes each
in-window record back exactly once with all subscribers notified; records
outside the window are neither messaged nor written. -/
theorem notifier_pass_correct (now : Int) (rs : List MovieRelease) :
    (handleTaskNotify now rs).msgs = notifyMsgsSpec now rs ∧
    (handleTaskNotify now rs).puts = notifyPutsSpec now rs ∧
    (∀ r ∈ rs, inWindow now r.releaseDate = true →
      86400 * ceilDiv (r.releaseDate - now) 86400 - 86400 < r.releaseDate - now ∧
      r.releaseDate - now ≤ 86400 * ceilDiv (r.releaseDate - now) 86400) := by
  refine ⟨handleTaskNotify_msgs now rs, handleTaskNotify_puts now rs, ?_⟩
  intro r _ _
  exact ceilDiv_86400_spec (r.releaseDate - now)

/-- C6: with the `exact` flag set, the removal loop of `handleRelease`
keeps a candidate iff its lowercased title contains the queried (lowercase)
title as a substring, and the survivors keep their relative order (the
result is the order-preserving filter of the input). -/
theorem exact_filter_correct (title : List Char) (results : List MovieAPIResult) :
    exactFilterLoop title 0 results = results.filter (keepExact title) ∧
    List.Sublist (exactFilterLoop title 0 results) results ∧
    ∀ r ∈ results, (r ∈ exactFilterLoop title 0 results ↔ keepExact title r = true) := by
  have he : exactFilterLoop title 0 results = results.filter (keepExact title) := by
    have h := exactFilterLoop_eq_aux title results 0
    simpa using h
  refine ⟨he, he ▸ List.filter_sublist results, ?_⟩
  intro r hr
  rw [he, List.mem_filter]
  exact ⟨fun h => h.2, fun h => ⟨hr, h⟩⟩

/-- C7: `queryMovies` fails — returning an error, never a result list —
whenever the response status is not 200, whenever the body is not valid
JSON, and whenever any single entry has a non-empty release-date string
that does not parse as `YYYY-MM-DD`; an entry with an empty release-date
string is not an error and is kept carrying the zero (unknown) date. -/
theorem queryMovies_errors :
    (∀ (status : Nat) (body : Option (List RawResult)), status ≠ 200 →
      ∀ out, queryMovies status body ≠ .ok out) ∧
    (∀ status, ∀ out, queryMovies status none ≠ .ok out) ∧
    (∀ results : List RawResult,
      (∃ r ∈ results, r.releaseDate ≠ "" ∧ parseDate r.releaseDate = none) →
      ∀ out, queryMovies 200 (some results) ≠ .ok out) ∧
    (∀ results out, queryMovies 200 (some results) = .ok out →
      ∀ r ∈ results, r.releaseDate = "" → r.toResult ∈ out) := by
  refine ⟨?_, ?_, ?_, ?_⟩
  · intro status body hs out
    simp [queryMovies, hs]
  · intro status out
    by_cases hs : status = 200
    · subst hs
      simp [queryMovies]
    · simp [queryMovies, hs]
  · intro results hbad out
    obtain ⟨e, he⟩ := parseDates_error results hbad
    simp [queryMovies, he]
  · intro results out h r hr hre
    simp only [queryMovies, if_neg (by omega : ¬(200 : Nat) ≠ 200)] at h
    cases hp : parseDates results with
    | ok parsed =>
      rw [hp] at h
      cases h
      exact (sortDesc_perm parsed).mem_iff.mpr (parseDates_keeps_empty results parsed hp r hr hre)
    | error e => rw [hp] at h; cases h

/-- C2: restricting the search results to strictly-future candidates, the
subscribe handler performs no transaction and replies that nothing was
found when there are zero of them, performs no transaction and asks the
user to disambiguate when there are two or more, and performs exactly one
transactional upsert and replies `"Done!"` when there is exactly one. -/
theorem subscribe_branches (results : List MovieAPIResult) (now chat : Int) (st : Store) :
    (results.filter (fun r => decide (now < r.releaseTime)) = [] →
      handleSubscribe results now chat st = ⟨"No movie releases found :(", st, 0⟩) ∧
    (∀ u, results.filter (fun r => decide (now < r.releaseTime)) = [u] →
      handleSubscribe results now chat st =
        ⟨"Done!", upsertTx st ⟨u.id, u.title, u.releaseTime, []⟩ chat, 1⟩) ∧
    (2 ≤ (results.filter (fun r => decide (now < r.releaseTime))).length →
      handleSubscribe results now chat st =
        ⟨"Found multiple movies, be more specific please.", st, 0⟩) := by
  have hfm : (results.filterMap fun res =>
        if now < res.releaseTime
        then some (⟨res.id, res.title, res.releaseTime, []⟩ : MovieRelease) else none) =
      (results.filter (fun r => decide (now < r.releaseTime))).map
        (fun r => (⟨r.id, r.title, r.releaseTime, []⟩ : MovieRelease)) :=
    filterMap_guard (fun r => now < r.releaseTime) _ results
  refine ⟨?_, ?_, ?_⟩
  · intro h0
    simp only [handleSubscribe, hfm, h0, List.map_nil]
  · intro u h1
    simp only [handleSubscribe, hfm, h1, List.map_cons, List.map_nil]
  · intro h2
    cases hc : results.filter (fun r => decide (now < r.releaseTime)) with
    | nil => rw [hc] at h2; simp at h2
    | cons a tail =>
      cases tail with
      | nil => rw [hc] at h2; simp at h2
      | cons b tail2 =>
        simp only [handleSubscribe, hfm, hc, List.map_cons]

/-- C5 (amended): a successful search returns a permutation of the parsed
entries ordered by release time descending, and an entry with an
unknown/empty date string carries the zero `time.Time` value (January 1 of
year 1) — which places it after every candidate dated later than that zero
value, though not necessarily at the very end, since the zero value is not
the minimum parseable date (year-0 dates precede it). -/
theorem queryMovies_sorted (status : Nat) (results : List RawResult)
    (out : List MovieAPIResult) (h : queryMovies status (some results) = .ok out) :
    ∃ parsed, parseDates results = .ok parsed ∧
      List.Perm out parsed ∧
      List.Pairwise descBy out ∧
      ∀ p ∈ out, p.releaseDate = "" → p.releaseTime = zeroTime := by
  by_cases hs : status = 200
  · subst hs
    simp only [queryMovies, if_neg (by omega : ¬(200 : Nat) ≠ 200)] at h
    cases hp : parseDates results with
    | ok parsed =>
      rw [hp] at h
      cases h
      refine ⟨parsed, rfl, sortDesc_perm parsed, sortDesc_pairwise parsed, ?_⟩
      intro p hp' hpe
      exact parseDates_empty_zero results parsed hp p
        ((sortDesc_perm parsed).mem_iff.mp hp') hpe
    | error e => rw [hp] at h; cases h
  · simp [queryMovies, hs] at h

/-- Witness for C5 (amended) at a concrete input: a single empty-dated
result is returned carrying the zero date. -/
theorem queryMovies_sorted_witness :
    ∃ parsed, parseDates [⟨"x", "", 7⟩] = .ok parsed ∧
      List.Perm [(⟨"x", "", 7, zeroTime⟩ : MovieAPIResult)] parsed ∧
      List.Pairwise descBy [(⟨"x", "", 7, zeroTime⟩ : MovieAPIResult)] ∧
      ∀ p ∈ [(⟨"x", "", 7, zeroTime⟩ : MovieAPIResult)],
        p.releaseDate = "" → p.releaseTime = zeroTime :=
  queryMovies_sorted 200 [⟨"x", "", 7⟩] [⟨"x", "", 7, zeroTime⟩] rfl

/-- C5 (counterexample): a parseable date in year 0000 sorts strictly below
the zero value carried by an empty date, so the empty-dated candidate is
not at the end of the list and the zero value is not the minimum: with
results `a` (dated 0000-01-01) and `b` (empty date), the output is `[b, a]`
— the empty-dated `b` first, the dated `a` after it. -/
theorem queryMovies_sorted_counterexample :
    queryMovies 200 (some [⟨"a", "0000-01-01", 1⟩, ⟨"b", "", 2⟩]) =
      .ok [⟨"b", "", 2, zeroTime⟩, ⟨"a", "0000-01-01", 1, civilInstant 0 1 1⟩] ∧
    civilInstant 0 1 1 < zeroTime ∧
    ("" : String) ≠ "0000-01-01" := by
  refine ⟨rfl, by decide, by decide⟩

/-- Chat ids of the record stored after an upsert stay duplicate-free. -/
theorem upsertTx_nodup (st : Store) (rel : MovieRelease) (chat : Int)
    (hinv : ∀ r ∈ storeAll st, (r.subscribers.map Subscriber.chatID).Nodup)
    (hrel : rel.subscribers = []) :
    ∀ r ∈ storeAll (upsertTx st rel chat), (r.subscribers.map Subscriber.chatID).Nodup := by
  intro r hr
  unfold upsertTx at hr
  cases hg : storeGet st rel.id with
  | none =>
    rw [hg] at hr
    simp only [Option.getD_none, hrel, List.any_nil, if_neg Bool.false_ne_true,
      List.nil_append] at hr
    rcases storeAll_storePut st rel.id _ r hr with h1 | h1
    · exact hinv r h1
    · subst h1
      simp
  | some r0 =>
    rw [hg] at hr
    simp only [Option.getD_some] at hr
    by_cases ha : r0.subscribers.any (fun s => s.chatID = chat) = true
    · rw [if_pos ha] at hr
      exact hinv r hr
    · rw [if_neg ha] at hr
      rcases storeAll_storePut st rel.id _ r hr with h1 | h1
      · exact hinv r h1
      · subst h1
        have hnd : (r0.subscribers.map Subscriber.chatID).Nodup :=
          hinv r0 (storeGet_mem st rel.id r0 hg)
        have hnotin : chat ∉ r0.subscribers.map Subscriber.chatID := by
          intro hmem
          apply ha
          rcases List.mem_map.mp hmem with ⟨s, hs, hsc⟩
          exact List.any_eq_true.mpr ⟨s, hs, by simp [hsc]⟩
        simp only [List.map_append, List.map_cons, List.map_nil]
        rw [List.nodup_append]
        exact ⟨hnd, List.nodup_singleton chat,
          by intro a hamem hbmem; simp at hbmem; subst hbmem; exact hnotin hamem⟩

/-- C3: a `MovieRelease` record holds at most one subscriber per chat id —
the invariant is preserved both by the subscribe upsert (called with a
fresh snapshot, which has no subscribers) and by a notifier pass — and
upserting the same chat id for the same catalog id twice is idempotent: the
second transaction is a no-op, and the record holds exactly one entry for
that chat id. -/
theorem subscriber_nodup_invariant (st : Store) (rel rel' : MovieRelease)
    (chat now : Int) (rs : List MovieRelease)
    (hinv : ∀ r ∈ storeAll st, (r.subscribers.map Subscriber.chatID).Nodup)
    (hrel : rel.subscribers = [])
    (hid : rel'.id = rel.id)
    (hrs : ∀ r ∈ rs, (r.subscribers.map Subscriber.chatID).Nodup) :
    (∀ r ∈ storeAll (upsertTx st rel chat), (r.subscribers.map Subscriber.chatID).Nodup) ∧
    (∀ r ∈ (handleTaskNotify now rs).store, (r.subscribers.map Subscriber.chatID).Nodup) ∧
    upsertTx (upsertTx st rel chat) rel' chat = upsertTx st rel chat ∧
    (∃ r, storeGet (upsertTx st rel chat) rel.id = some r ∧
      (r.subscribers.filter (fun s => s.chatID = chat)).length = 1) := by
  refine ⟨upsertTx_nodup st rel chat hinv hrel, ?_, ?_, ?_⟩
  · intro r hr
    rw [handleTaskNotify_store] at hr
    rcases List.mem_map.mp hr with ⟨r0, hr0, hr0eq⟩
    by_cases hw : inWindow now r0.releaseDate
    · rw [if_pos hw] at hr0eq
      subst hr0eq
      simp only [allNotified, List.map_map]
      have : (Subscriber.chatID ∘ fun s => (⟨true, s.chatID⟩ : Subscriber)) =
          Subscriber.chatID := by
        funext s
        rfl
      rw [this]
      exact hrs r0 hr0
    · rw [if_neg hw] at hr0eq
      subst hr0eq
      exact hrs r0 hr0
  · obtain ⟨r1, hget, hany⟩ := upsertTx_get st rel chat hrel
    conv_lhs => rw [upsertTx]
    rw [hid, hget]
    simp only [Option.getD_some]
    rw [if_pos hany]
  · obtain ⟨r1, hget, hany⟩ := upsertTx_get st rel chat hrel
    refine ⟨r1, hget, ?_⟩
    have hnd : (r1.subscribers.map Subscriber.chatID).Nodup :=
      upsertTx_nodup st rel chat hinv hrel r1 (storeGet_mem _ _ _ hget)
    exact count_chat_of_nodup r1.subscribers chat hnd hany

/-- Witness for C3: the empty store, a fresh snapshot and chat id 9. -/
theorem subscriber_nodup_invariant_witness :
    (∀ r ∈ storeAll (upsertTx [] ⟨1, "t", 5, []⟩ 9),
      (r.subscribers.map Subscriber.chatID).Nodup) ∧
    (∀ r ∈ (handleTaskNotify 0 []).store, (r.subscribers.map Subscriber.chatID).Nodup) ∧
    upsertTx (upsertTx [] ⟨1, "t", 5, []⟩ 9) ⟨1, "t", 5, []⟩ 9 =
      upsertTx [] ⟨1, "t", 5, []⟩ 9 ∧
    (∃ r, storeGet (upsertTx [] ⟨1, "t", 5, []⟩ 9) (1 : Int) = some r ∧
      (r.subscribers.filter (fun s => s.chatID = 9)).length = 1) :=
  subscriber_nodup_invariant [] ⟨1, "t", 5, []⟩ ⟨1, "t", 5, []⟩ 9 0 []
    (by intro r hr; simp [storeAll] at hr) rfl rfl
    (by intro r hr; simp at hr)

/-- C10: when the upsert runs against a key that already holds a record,
the stored title, release date and every existing subscriber (flags
included) are kept verbatim; the only possible change is appending one new
`{notified := false, chatID := chat}` entry, and no other key of the store
is touched.  The fresh snapshot's fields are not consulted. -/
theorem upsert_frame (st : Store) (rel : MovieRelease) (chat : Int)
    (r0 : MovieRelease) (h : storeGet st rel.id = some r0) :
    (∃ r', storeGet (upsertTx st rel chat) rel.id = some r' ∧
      r'.id = r0.id ∧ r'.movieTitle = r0.movieTitle ∧
      r'.releaseDate = r0.releaseDate ∧
      (r'.subscribers = r0.subscribers ∨
       r'.subscribers = r0.subscribers ++ [⟨false, chat⟩])) ∧
    (∀ k, k ≠ rel.id → storeGet (upsertTx st rel chat) k = storeGet st k) := by
  unfold upsertTx
  rw [h]
  simp only [Option.getD_some]
  by_cases ha : r0.subscribers.any (fun s => s.chatID = chat) = true
  · rw [if_pos ha]
    exact ⟨⟨r0, h, rfl, rfl, rfl, Or.inl rfl⟩, fun k _ => rfl⟩
  · rw [if_neg ha]
    refine ⟨⟨_, storeGet_storePut_same st rel.id _, rfl, rfl, rfl, Or.inr rfl⟩, ?_⟩
    intro k hk
    exact storeGet_storePut_other st rel.id k _ hk

/-- Witness for C10: a store holding one record with an already-notified
subscriber, upserted with a different chat id. -/
theorem upsert_frame_witness :
    (∃ r', storeGet (upsertTx [((1 : Int), ⟨1, "orig", 7, [⟨true, 5⟩]⟩)]
        ⟨1, "snap", 3, []⟩ 2) (1 : Int) = some r' ∧
      r'.id = (1 : Int) ∧ r'.movieTitle = "orig" ∧ r'.releaseDate = (7 : Int) ∧
      (r'.subscribers = [⟨true, 5⟩] ∨
       r'.subscribers = [⟨true, 5⟩] ++ [⟨false, 2⟩])) ∧
    (∀ k, k ≠ (1 : Int) →
      storeGet (upsertTx [((1 : Int), ⟨1, "orig", 7, [⟨true, 5⟩]⟩)] ⟨1, "snap", 3, []⟩ 2) k =
        storeGet [((1 : Int), ⟨1, "orig", 7, [⟨true, 5⟩]⟩)] k) :=
  upsert_frame [((1 : Int), ⟨1, "orig", 7, [⟨true, 5⟩]⟩)] ⟨1, "snap", 3, []⟩ 2
    ⟨1, "orig", 7, [⟨true, 5⟩]⟩ rfl

/-- A record read back after an upsert is either unchanged or — only at the
release's own key — extended by the one new subscriber. -/
theorem upsertTx_frame_aux (st : Store) (rel : MovieRelease) (chat k : Int)
    (r r' : MovieRelease) (hr : storeGet st k = some r)
    (hr' : storeGet (upsertTx st rel chat) k = some r') :
    r' = r ∨
    (k = rel.id ∧
     r' = { r with subscribers := r.subscribers ++ [⟨false, chat⟩] }) := by
  unfold upsertTx at hr'
  cases hg : storeGet st rel.id with
  | none =>
    have hk : k ≠ rel.id := by
      intro he
      rw [he, hg] at hr
      cases hr
    rw [hg] at hr'
    simp only [Option.getD_none] at hr'
    by_cases ha : rel.subscribers.any (fun s => s.chatID = chat) = true
    · rw [if_pos ha] at hr'
      rw [hr] at hr'
      cases hr'
      exact Or.inl rfl
    · rw [if_neg ha] at hr'
      rw [storeGet_storePut_other st rel.id k _ hk, hr] at hr'
      cases hr'
      exact Or.inl rfl
  | some r0 =>
    rw [hg] at hr'
    simp only [Option.getD_some] at hr'
    by_cases ha : r0.subscribers.any (fun s => s.chatID = chat) = true
    · rw [if_pos ha] at hr'
      rw [hr] at hr'
      cases hr'
      exact Or.inl rfl
    · rw [if_neg ha] at hr'
      by_cases hk : k = rel.id
      · subst hk
        rw [hg] at hr
        cases hr
        rw [storeGet_storePut_same] at hr'
        cases hr'
        exact Or.inr ⟨rfl, rfl⟩
      · rw [storeGet_storePut_other st rel.id k _ hk, hr] at hr'
        cases hr'
        exact Or.inl rfl

/-- C4: the notified flag is one-way.  (1) A notifier pass keeps every
record's identity fields and every subscriber's chat id, and never turns a
notified flag from true back to false; (2) the subscribe upsert only ever
appends to a stored subscriber list, so it resets no flag either; (3)
within a pass, messages go exactly to the subscribers whose flag is false;
(4) after a pass, every subscriber of an in-window record is notified, so
(5) a later pass at any time sends that record's subscribers nothing —
records in the window at the first pass contribute no message to the
second, even if they fall in the window again. -/
theorem notified_one_way (now now' : Int) (rs : List MovieRelease) :
    List.Forall₂ (fun r r' => r'.id = r.id ∧ r'.movieTitle = r.movieTitle ∧
        r'.releaseDate = r.releaseDate ∧
        List.Forall₂ (fun s s' => s'.chatID = s.chatID ∧
            (s.notified = true → s'.notified = true))
          r.subscribers r'.subscribers)
      rs (handleTaskNotify now rs).store ∧
    (∀ (st : Store) (rel : MovieRelease) (chat k : Int) (r r' : MovieRelease),
      storeGet st k = some r → storeGet (upsertTx st rel chat) k = some r' →
      ∃ t, r'.subscribers = r.subscribers ++ t) ∧
    (handleTaskNotify now rs).msgs = notifyMsgsSpec now rs ∧
    (∀ r' ∈ (handleTaskNotify now rs).store, inWindow now r'.releaseDate = true →
      ∀ s ∈ r'.subscribers, s.notified = true) ∧
    (handleTaskNotify now' (handleTaskNotify now rs).store).msgs =
      notifyMsgsSpec now'
        ((handleTaskNotify now rs).store.filter
          (fun r => !(inWindow now r.releaseDate))) := by
  have hstore := handleTaskNotify_store now rs
  have hall : ∀ r' ∈ (handleTaskNotify now rs).store,
      inWindow now r'.releaseDate = true → ∀ s ∈ r'.subscribers, s.notified = true := by
    intro r' hr' hw s hs
    rw [hstore] at hr'
    rcases List.mem_map.mp hr' with ⟨r0, _, hr0eq⟩
    by_cases hw0 : inWindow now r0.releaseDate
    · subst hr0eq
      rw [if_pos hw0] at hs
      simp only [allNotified] at hs
      rcases List.mem_map.mp hs with ⟨s0, _, hs0eq⟩
      subst hs0eq
      rfl
    · rw [if_neg hw0] at hr0eq
      subst hr0eq
      exact absurd hw (by simp [hw0])
  refine ⟨?_, ?_, handleTaskNotify_msgs now rs, hall, ?_⟩
  · rw [hstore, List.forall₂_map_right_iff, List.forall₂_same]
    intro r _
    by_cases hw : inWindow now r.releaseDate
    · rw [if_pos hw]
      refine ⟨rfl, rfl, rfl, ?_⟩
      simp only [allNotified]
      rw [List.forall₂_map_right_iff, List.forall₂_same]
      intro s _
      exact ⟨rfl, fun _ => rfl⟩
    · rw [if_neg hw]
      refine ⟨rfl, rfl, rfl, ?_⟩
      rw [List.forall₂_same]
      intro s _
      exact ⟨rfl, fun h => h⟩
  · intro st rel chat k r r' hr hr'
    rcases upsertTx_frame_aux st rel chat k r r' hr hr' with h1 | ⟨_, h1⟩
    · exact ⟨[], by simp [h1]⟩
    · exact ⟨[⟨false, chat⟩], by rw [h1]⟩
  · rw [handleTaskNotify_msgs]
    unfold notifyMsgsSpec
    apply flatMap_filter_of_nil
    intro a ha hp
    have hw : inWindow now a.releaseDate = true := by
      simpa using hp
    have : a.subscribers.filter (fun s => !s.notified) = [] := by
      rw [List.filter_eq_nil_iff]
      intro s hs
      simp [hall a ha hw s hs]
    rw [this]
    simp

/-- C8: `"release exact julia"` parses as a release query with `exact`,
title `julia` and no year (the bare pattern fires, so the submatch array has
three entries); `"release climax year 2018"` parses as a year-qualified
release query with `exact = false`, title `climax` and year `2018`. -/
theorem command_parse_examples :
    (∃ m, dispatchText "release exact julia".toList = .releaseCmd m ∧
      parseReleaseArgs m = ⟨true, "julia".toList, []⟩) ∧
    (∃ m, dispatchText "release climax year 2018".toList = .releaseCmd m ∧
      parseReleaseArgs m = ⟨false, "climax".toList, "2018".toList⟩) := by
  constructor
  · exact ⟨["release exact julia".toList, "exact".toList, "julia".toList], rfl, rfl⟩
  · exact ⟨["release climax year 2018".toList, [], "climax".toList, "2018".toList],
      rfl, rfl⟩

/-- C9: for every inbound text, the dispatcher (after lowercasing and
trimming) tries the year-qualified release pattern, then the bare release
pattern, then subscribe, then list, and routes to the first that matches;
a text matching none of the four always yields the help reply; and the
parse step is total — every text is routed to one of the five outcomes,
never an error. -/
theorem dispatch_order (input : List Char) :
    ((∃ m, dispatchText input = .releaseCmd m) ∨
     (∃ m, dispatchText input = .subscribeCmd m) ∨
     dispatchText input = .listCmd ∨ dispatchText input = .helpCmd) ∧
    (∀ m, findSubmatch releaseYearCommand 3 (trimSpace (input.map Char.toLower)) = some m →
      dispatchText input = .releaseCmd m) ∧
    (findSubmatch releaseYearCommand 3 (trimSpace (input.map Char.toLower)) = none →
     ∀ m, findSubmatch releaseCommand 2 (trimSpace (input.map Char.toLower)) = some m →
      dispatchText input = .releaseCmd m) ∧
    (findSubmatch releaseYearCommand 3 (trimSpace (input.map Char.toLower)) = none →
     findSubmatch releaseCommand 2 (trimSpace (input.map Char.toLower)) = none →
     ∀ m, findSubmatch subscribeCommand 1 (trimSpace (input.map Char.toLower)) = some m →
      dispatchText input = .subscribeCmd m) ∧
    (findSubmatch releaseYearCommand 3 (trimSpace (input.map Char.toLower)) = none →
     findSubmatch releaseCommand 2 (trimSpace (input.map Char.toLower)) = none →
     findSubmatch subscribeCommand 1 (trimSpace (input.map Char.toLower)) = none →
     ∀ m, findSubmatch listSubscriptionsCommand 0 (trimSpace (input.map Char.toLower)) = some m →
      dispatchText input = .listCmd) ∧
    (findSubmatch releaseYearCommand 3 (trimSpace (input.map Char.toLower)) = none →
     findSubmatch releaseCommand 2 (trimSpace (input.map Char.toLower)) = none →
     findSubmatch subscribeCommand 1 (trimSpace (input.map Char.toLower)) = none →
     findSubmatch listSubscriptionsCommand 0 (trimSpace (input.map Char.toLower)) = none →
      dispatchText input = .helpCmd) := by
  refine ⟨?_, ?_, ?_, ?_, ?_, ?_⟩
  · cases h1 : findSubmatch releaseYearCommand 3 (trimSpace (input.map Char.toLower)) with
    | some m => exact Or.inl ⟨m, by simp [dispatchText, h1]⟩
    | none =>
      cases h2 : findSubmatch releaseCommand 2 (trimSpace (input.map Char.toLower)) with
      | some m => exact Or.inl ⟨m, by simp [dispatchText, h1, h2]⟩
      | none =>
        cases h3 : findSubmatch subscribeCommand 1 (trimSpace (input.map Char.toLower)) with
        | some m => exact Or.inr (Or.inl ⟨m, by simp [dispatchText, h1, h2, h3]⟩)
        | none =>
          cases h4 : findSubmatch listSubscriptionsCommand 0
              (trimSpace (input.map Char.toLower)) with
          | some m => exact Or.inr (Or.inr (Or.inl (by simp [dispatchText, h1, h2, h3, h4])))
          | none => exact Or.inr (Or.inr (Or.inr (by simp [dispatchText, h1, h2, h3, h4])))
  · intro m h1
    simp [dispatchText, h1]
  · intro h1 m h2
    simp [dispatchText, h1, h2]
  · intro h1 h2 m h3
    simp [dispatchText, h1, h2, h3]
  · intro h1 h2 h3 m h4
    simp [dispatchText, h1, h2, h3, h4]
  · intro h1 h2 h3 h4
    simp [dispatchText, h1, h2, h3, h4]
